import Mathlib

/-!
Verification of the command-pipeline core of `MinesShell.cpp` (a small
interactive shell).  The definitions below are a shallow embedding of the
C++ source: character-level input normalization (`checkWhiteSpaces`),
whitespace tokenization (`tokenize` via `istream_iterator`), the two
syntax validators, argument-vector construction and child-process
behaviour of `executeCommand`, the stage splitting / pipe wiring / child
behaviour of `executePipedCommand`, the background executor
`executeCommandInBackground`, and the dispatch logic of `main`'s command
loop.  Process-level effects (fork, waitpid, dup/dup2, pipe) are embedded
as explicit data: traces of operations and binding values computed by
pure functions, faithful to the order and conditions in the source.
-/

/-- `isspace` of the C locale, as used by `checkWhiteSpaces`
(src/MinesShell.cpp line 399/404): space, tab, newline, vertical tab,
form feed, carriage return. -/
def isSpaceC (c : Char) : Bool :=
  c = ' ' || c = '\t' || c = '\n' || c = '\x0b' || c = '\x0c' || c = '\r'

/-- The operator characters isolated by `checkWhiteSpaces`
(src/MinesShell.cpp line 391: `specialChars = "|<>&"`). -/
def isSpecialC (c : Char) : Bool :=
  c = '|' || c = '<' || c = '>' || c = '&'

/-- The space inserted before a special character when the previous input
character exists and is not whitespace (src/MinesShell.cpp lines 398-401). -/
def spaceBefore (prev : Option Char) : List Char :=
  match prev with
  | none => []
  | some p => if isSpaceC p then [] else [' ']

/-- The space inserted after a special character when the next input
character exists and is not whitespace (src/MinesShell.cpp lines 403-406). -/
def spaceAfter (rest : List Char) : List Char :=
  match rest with
  | [] => []
  | d :: _ => if isSpaceC d then [] else [' ']

/-- The loop body of `checkWhiteSpaces` (src/MinesShell.cpp lines 393-410),
recursing with the previous original character in hand; neighbour tests are
against the original input, exactly as the C++ indexes `input[i-1]` and
`input[i+1]`. -/
def cwsAux (prev : Option Char) : List Char → List Char
  | [] => []
  | c :: rest =>
    if isSpecialC c then
      spaceBefore prev ++ c :: (spaceAfter rest ++ cwsAux (some c) rest)
    else
      c :: cwsAux (some c) rest

/-- `checkWhiteSpaces` (src/MinesShell.cpp lines 389-412): surrounds every
`|<>&` character with spaces unless the original neighbour is whitespace. -/
def checkWhiteSpaces (s : List Char) : List Char := cwsAux none s

/-- Emits the pending word accumulator (reversed, since characters are
consed on) in front of a token list, dropping it when empty.  Helper for
the whitespace tokenizer. -/
def flushAcc (acc : List Char) (ts : List (List Char)) : List (List Char) :=
  match acc with
  | [] => ts
  | _ :: _ => acc.reverse :: ts

/-- Whitespace splitting as performed by
`istream_iterator<string>` in `tokenize` (src/MinesShell.cpp lines 42-45):
maximal runs of non-whitespace characters become tokens. -/
def tokenizeAux (acc : List Char) : List Char → List (List Char)
  | [] => flushAcc acc []
  | c :: rest =>
    if isSpaceC c then flushAcc acc (tokenizeAux [] rest)
    else tokenizeAux (c :: acc) rest

/-- `tokenize` (src/MinesShell.cpp lines 42-45) on a character list. -/
def tokenizeChars (s : List Char) : List (List Char) := tokenizeAux [] s

/-- One-pass scanner equivalent to `tokenize ∘ checkWhiteSpaces`: words are
maximal runs of characters that are neither whitespace nor special, and
every special character is a standalone token.  Used only as a proof
vehicle; the equivalence with the source composition is proved below. -/
def scanAux (acc : List Char) : List Char → List (List Char)
  | [] => flushAcc acc []
  | c :: rest =>
    if isSpaceC c then flushAcc acc (scanAux [] rest)
    else if isSpecialC c then flushAcc acc ([c] :: scanAux [] rest)
    else scanAux (c :: acc) rest

/-- One-pass scanner, top level. -/
def scanTokens (s : List Char) : List (List Char) := scanAux [] s

/-- The token sequence `main` computes for a raw input line
(src/MinesShell.cpp lines 471-473): normalize whitespace around operators,
then split on whitespace. -/
def shellTokens (raw : List Char) : List String :=
  (tokenizeChars (checkWhiteSpaces raw)).map String.mk

/-- `findTokenIndex`'s underlying search (src/MinesShell.cpp lines 52-55):
index of the first occurrence of a token, if any. -/
def findTokenIndexAux (token : String) : List String → Option Nat
  | [] => none
  | t :: rest =>
    if t = token then some 0
    else (findTokenIndexAux token rest).map (· + 1)

/-- `findTokenIndex` (src/MinesShell.cpp lines 52-55): first index of
`token`, or `-1` when absent. -/
def findTokenIndex (tokens : List String) (token : String) : Int :=
  match findTokenIndexAux token tokens with
  | some i => (i : Int)
  | none => -1

/-- The loop of `hasSyntaxErrors` (src/MinesShell.cpp lines 62-90),
carrying the running redirect/pipe counts, the previous token, the current
index and the total length.  Returns `true` exactly when the C++ function
returns `true` (some check fires). -/
def hasSyntaxErrorsAux (inC outC pipeC : Nat) (prev : String) (i total : Nat) :
    List String → Bool
  | [] => false
  | t :: rest =>
    if t = "<" then
      if i = 0 ∨ prev = "|" ∨ inC + 1 > 1 then true
      else hasSyntaxErrorsAux (inC + 1) outC pipeC t (i + 1) total rest
    else if t = ">" then
      if i = 0 ∨ prev = "|" ∨ outC + 1 > 1 then true
      else hasSyntaxErrorsAux inC (outC + 1) pipeC t (i + 1) total rest
    else if t = "|" then
      if prev = "|" ∨ i = 0 ∨ i = total - 1 then true
      else hasSyntaxErrorsAux inC outC (pipeC + 1) t (i + 1) total rest
    else hasSyntaxErrorsAux inC outC pipeC t (i + 1) total rest

/-- `hasSyntaxErrors` (src/MinesShell.cpp lines 62-90).  The C++ checks
`tokens[i-1] == "|"` for redirects and the `prevToken` variable for pipes;
both equal the previous token, carried here as `prev` (initially `""`). -/
def hasSyntaxErrors (tokens : List String) : Bool :=
  hasSyntaxErrorsAux 0 0 0 "" 0 tokens.length tokens

/-- The adjacency loop of `hasMultipleRedirectionsOrPipes`
(src/MinesShell.cpp lines 369-379): is some `"|"` immediately preceded or
followed by `">"` or `"<"`?  `prev` starts as `""` (no previous token),
mirroring the `i > 0` guard. -/
def pipeAdjacentRedirect (prev : String) : List String → Bool
  | [] => false
  | t :: rest =>
    if t = "|" &&
        (prev = ">" || prev = "<" ||
          (match rest with
           | r :: _ => r = ">" || r = "<"
           | [] => false)) then
      true
    else pipeAdjacentRedirect t rest

/-- `hasMultipleRedirectionsOrPipes` (src/MinesShell.cpp lines 353-386). -/
def hasMultipleRedirectionsOrPipes (tokens : List String) : Bool :=
  let inC := tokens.count "<"
  let outC := tokens.count ">"
  let pC := tokens.count "|"
  if inC > 1 then true
  else if outC > 1 then true
  else if pC > 0 ∧ (inC > 0 ∨ outC > 0) then pipeAdjacentRedirect "" tokens
  else false

/-- `isBackgroundCommand` (src/MinesShell.cpp lines 307-309): non-empty and
the last character is `'&'`. -/
def isBackgroundCommand (cmd : List Char) : Bool :=
  match cmd.getLast? with
  | some c => c = '&'
  | none => false

/-- What a standard stream of a process is bound to: the binding inherited
from the shell, an opened redirect file, or one end of an inter-stage pipe
(`pipeRead k` / `pipeWrite k` are the two descriptors returned by the
`k`-th `pipe()` call). -/
inductive Binding where
  | inherited
  | file (path : String)
  | pipeRead (k : Nat)
  | pipeWrite (k : Nat)
deriving DecidableEq, Repr

/-- The argument vector `executeCommand` builds for `execvp`
(src/MinesShell.cpp lines 102-112): every token whose index is neither a
redirect-operator index nor the index right after one. -/
def buildArgs (tokens : List String) : List String :=
  let rIn := findTokenIndex tokens "<"
  let rOut := findTokenIndex tokens ">"
  (List.range tokens.length).filterMap fun (i : Nat) =>
    if (i : Int) ≠ rIn ∧ (i : Int) ≠ rOut ∧
        (rIn = -1 ∨ (i : Int) ≠ rIn + 1) ∧
        (rOut = -1 ∨ (i : Int) ≠ rOut + 1) then
      tokens[i]?
    else none

/-- The input-redirect file `executeCommand`'s child opens, when the guard
`redirectInIndex != -1 && redirectInIndex + 1 < tokens.size()`
(src/MinesShell.cpp line 120) holds. -/
def childInputRedirect (tokens : List String) : Option String :=
  let r := findTokenIndex tokens "<"
  if r ≠ -1 ∧ r + 1 < (tokens.length : Int) then tokens[(r + 1).toNat]?
  else none

/-- The output-redirect file `executeCommand`'s child opens, when the guard
`redirectOutIndex != -1 && redirectOutIndex + 1 < tokens.size()`
(src/MinesShell.cpp line 130) holds. -/
def childOutputRedirect (tokens : List String) : Option String :=
  let r := findTokenIndex tokens ">"
  if r ≠ -1 ∧ r + 1 < (tokens.length : Int) then tokens[(r + 1).toNat]?
  else none

/-- Observable behaviour of a forked child up to its `execvp` call:
standard-stream bindings, whether it exited before exec (with which code),
the error messages it wrote, and the argument vector it executes. -/
structure ChildBehavior where
  stdinB : Binding
  stdoutB : Binding
  exited : Option Nat
  msgs : List String
  argv : List String
deriving DecidableEq, Repr

/-- The child branch of `executeCommand` (src/MinesShell.cpp lines
118-150).  `inOk` / `outOk` say whether the respective `open` call
succeeds; on a failed open the child prints a message and exits with
`EXIT_FAILURE` (lines 122-125 and 132-135) before any further step. -/
def executeCommandChild (tokens : List String) (inOk outOk : Bool) :
    ChildBehavior :=
  let argv := buildArgs tokens
  match childInputRedirect tokens with
  | some p =>
    if inOk then
      match childOutputRedirect tokens with
      | some q =>
        if outOk then
          ⟨Binding.file p, Binding.file q, none, [], argv⟩
        else
          ⟨Binding.file p, Binding.inherited, some 1,
            ["Failed to open output redirection file"], argv⟩
      | none => ⟨Binding.file p, Binding.inherited, none, [], argv⟩
    else
      ⟨Binding.inherited, Binding.inherited, some 1,
        ["Failed to open input redirection file"], argv⟩
  | none =>
    match childOutputRedirect tokens with
    | some q =>
      if outOk then ⟨Binding.inherited, Binding.file q, none, [], argv⟩
      else
        ⟨Binding.inherited, Binding.inherited, some 1,
          ["Failed to open output redirection file"], argv⟩
    | none => ⟨Binding.inherited, Binding.inherited, none, [], argv⟩

/-- Which standard stream an operation of the parent touches. -/
inductive StreamId where
  | stdin
  | stdout
deriving DecidableEq, Repr

/-- Operations the parent branch of `executeCommand` performs on its own
process state (src/MinesShell.cpp lines 114, 152-175): forking, saving a
standard descriptor with `dup`, waiting, restoring with `dup2`, closing
the saved copy. -/
inductive POp where
  | forkChild
  | dupSave (s : StreamId)
  | waitChild
  | dup2Restore (s : StreamId)
  | closeSaved (s : StreamId)
deriving DecidableEq, Repr

/-- Parent-side effect summary of `executeCommand`: the ordered operations
performed and the parent's standard-stream bindings after the call. -/
structure ParentFx where
  ops : List POp
  finalStdin : Binding
  finalStdout : Binding
deriving DecidableEq, Repr

/-- The parent branch of `executeCommand` (src/MinesShell.cpp lines
152-175), given the parent's bindings on entry.  `saved_stdout` /
`saved_stdin` are `dup`s of the current bindings (lines 153-160); after
`waitpid`, `dup2(saved, STDxxx)` re-points the standard descriptor at the
saved duplicate — the very binding it already had — and the duplicate is
closed (lines 166-174). -/
def executeCommandParentFx (tokens : List String)
    (stdin0 stdout0 : Binding) : ParentFx :=
  let rIn := findTokenIndex tokens "<"
  let rOut := findTokenIndex tokens ">"
  let savedOut : Option Binding := if rOut ≠ -1 then some stdout0 else none
  let savedIn : Option Binding := if rIn ≠ -1 then some stdin0 else none
  { ops :=
      [POp.forkChild] ++
      (if rOut ≠ -1 then [POp.dupSave StreamId.stdout] else []) ++
      (if rIn ≠ -1 then [POp.dupSave StreamId.stdin] else []) ++
      [POp.waitChild] ++
      (if rOut ≠ -1 then
        [POp.dup2Restore StreamId.stdout, POp.closeSaved StreamId.stdout]
      else []) ++
      (if rIn ≠ -1 then
        [POp.dup2Restore StreamId.stdin, POp.closeSaved StreamId.stdin]
      else [])
    finalStdin := match savedIn with
      | some b => b
      | none => stdin0
    finalStdout := match savedOut with
      | some b => b
      | none => stdout0 }

/-- The command-splitting loop at the top of `executePipedCommand`
(src/MinesShell.cpp lines 188-194): segments between `"|"` tokens.  The
loop stops when `startIt` reaches the end, so a trailing `"|"` produces no
empty final segment. -/
def splitAtPipesGo (cur : List String) : List String → List (List String)
  | [] => [cur]
  | t :: rest =>
    if t = "|" then
      match rest with
      | [] => [cur]
      | _ :: _ => cur :: splitAtPipesGo [] rest
    else splitAtPipesGo (cur ++ [t]) rest

/-- `commands` as computed by `executePipedCommand` (src/MinesShell.cpp
lines 188-194).  An empty token list yields no commands (the `while` loop
body never runs). -/
def splitAtPipes : List String → List (List String)
  | [] => []
  | t :: rest => splitAtPipesGo [] (t :: rest)

/-- Erase the two consecutive elements starting at index `r`, as
`commands[i].erase(begin + r, begin + r + 2)` does
(src/MinesShell.cpp lines 227 and 255-256). -/
def eraseTwoAt (cmd : List String) (r : Nat) : List String :=
  cmd.take r ++ cmd.drop (r + 2)

/-- The child branch of `executePipedCommand` for stage `i`
(src/MinesShell.cpp lines 215-264), run on the success path of `pipe` and
`fork`.  At fork time the child's `in_fd` is `STDIN_FILENO` for stage 0
and the read end of pipe `i-1` otherwise (the parent sets `in_fd = fd[0]`
at the end of the previous iteration, line 272).

Stage 0 with an input redirect whose target token exists (line 219): the
child opens the file; `inOk` says whether `open` succeeds.  On failure it
prints the (mislabelled) message via `perror` and does NOT exit — the
`exit(EXIT_FAILURE)` at line 223 is commented out — so `in_fd` is `-1`,
both subsequent `dup2(in_fd, STDIN_FILENO)` calls fail with `EBADF` and
change nothing, and the child falls through to `execvp`.  On success the
first `dup2` binds stdin to the file (the second `dup2` targets the
already-closed descriptor and fails harmlessly).  The operator and its
target are erased from the stage's words in both cases (line 227).

Any non-last stage then binds stdout to the write end of pipe `i`
(lines 238-242).  The last stage with an output redirect whose target
exists (line 247) opens it; on failure (`outOk = false`) the child prints
a message and exits with `EXIT_FAILURE` (lines 250-251), on success it
binds stdout to the file and erases the operator and target. -/
def pipelineChild (cmds : List (List String)) (i : Nat)
    (inOk outOk : Bool) : ChildBehavior :=
  let n := cmds.length
  let cmd0 := cmds[i]?.getD []
  let inRedirect := i = 0 ∧ findTokenIndex cmd0 "<" ≠ -1 ∧
    findTokenIndex cmd0 "<" + 1 < (cmd0.length : Int)
  let stdin1 : Binding :=
    if i = 0 then
      if inRedirect ∧ inOk then
        Binding.file (cmd0[(findTokenIndex cmd0 "<" + 1).toNat]?.getD "")
      else Binding.inherited
    else Binding.pipeRead (i - 1)
  let cmd1 :=
    if inRedirect then eraseTwoAt cmd0 (findTokenIndex cmd0 "<").toNat
    else cmd0
  let msgs1 : List String :=
    if inRedirect ∧ ¬inOk then
      ["syntax error, unexpected PIPE, expecting STRING"]
    else []
  if i < n - 1 then
    ⟨stdin1, Binding.pipeWrite i, none, msgs1, cmd1⟩
  else
    let outRedirect := i = n - 1 ∧ findTokenIndex cmd1 ">" ≠ -1 ∧
      findTokenIndex cmd1 ">" + 1 < (cmd1.length : Int)
    if outRedirect then
      if outOk then
        ⟨stdin1,
          Binding.file (cmd1[(findTokenIndex cmd1 ">" + 1).toNat]?.getD ""),
          none, msgs1, eraseTwoAt cmd1 (findTokenIndex cmd1 ">").toNat⟩
      else
        ⟨stdin1, Binding.inherited, some 1,
          msgs1 ++ ["open for output redirection failed"], cmd1⟩
    else ⟨stdin1, Binding.inherited, none, msgs1, cmd1⟩


/-- Events of the launch loop of `executePipedCommand`
(src/MinesShell.cpp lines 199-275): a pipe allocation or a fork. -/
inductive LEv where
  | pipeAlloc (k : Nat)
  | forkStage (i : Nat)
deriving DecidableEq, Repr

/-- Is the event a pipe allocation? -/
def LEv.isPipeAlloc : LEv → Bool
  | LEv.pipeAlloc _ => true
  | LEv.forkStage _ => false

/-- Is the event a fork? -/
def LEv.isForkStage : LEv → Bool
  | LEv.pipeAlloc _ => false
  | LEv.forkStage _ => true

/-- The launch loop of `executePipedCommand` over the listed iteration
indices: for each `i`, `pipe(fd)` is called exactly when
`i < commands.size() - 1` (evaluated inside the `&&` at line 202; on the
success path the inner retry block is skipped), then `fork()` (line 211). -/
def launchEventsAux (n : Nat) : List Nat → List LEv
  | [] => []
  | i :: rest =>
    (if i + 1 < n then [LEv.pipeAlloc i] else []) ++
      LEv.forkStage i :: launchEventsAux n rest

/-- Pipe allocations and forks `executePipedCommand` performs for an
`n`-stage pipeline on the success path (src/MinesShell.cpp lines
199-275). -/
def launchEvents (n : Nat) : List LEv := launchEventsAux n (List.range n)

/-- What `executePipedCommand` exposes: the argument vectors of the stages
it spawns (it forks one child per stage, statuses never influence
spawning), the order in which it waits (`for (pid_t pid : child_pids)`
waits in spawn order, lines 282-285), the statuses `waitpid` writes into
the loop-local `status` variable, and the value returned to the caller —
the C++ function's return type is `void` (line 182) and `main` calls it as
a bare statement (line 493), so no exit status reaches the control loop:
`returnedStatus` is `none` by the shape of the source. -/
structure PipedOutcome where
  spawnedArgvs : List (List String)
  waitOrder : List Nat
  observedStatuses : List Int
  returnedStatus : Option Int
deriving Repr

/-- `executePipedCommand` (src/MinesShell.cpp lines 182-289) on the
success path of `pipe`/`fork`, with `statusOf i` the termination status of
stage `i`. -/
def executePipedCommandOutcome (cmds : List (List String))
    (statusOf : Nat → Int) : PipedOutcome :=
  { spawnedArgvs :=
      (List.range cmds.length).map fun i => (pipelineChild cmds i true true).argv
    waitOrder := List.range cmds.length
    observedStatuses := (List.range cmds.length).map statusOf
    returnedStatus := none }

/-- Parent-side effect of `executeCommandInBackground` (src/MinesShell.cpp
lines 335-343): the parent forks and immediately returns — the `if
(pid == 0)` branch is the child; the parent records no pid anywhere and
performs no wait. -/
structure BgParentFx where
  forked : Bool
  retainedPids : List Nat
  waits : List Nat
deriving DecidableEq, Repr

/-- `executeCommandInBackground`, parent side (src/MinesShell.cpp lines
335-343). -/
def executeCommandInBackgroundParent (_tokens : List String) : BgParentFx :=
  { forked := true
    retainedPids := []
    waits := [] }

/-- The foreground action `main`'s dispatch chain selects for a line
(src/MinesShell.cpp lines 488-525). -/
inductive FgAction where
  | piped (tokens : List String)
  | single (tokens : List String)
  | builtinCd (tokens : List String)
  | builtinRm
  | builtinClear
  | assign (input : List Char)
deriving DecidableEq, Repr

/-- Does the selected foreground action wait on a child process?
`executePipedCommand` waits for every child (src/MinesShell.cpp lines
282-285) and `executeCommand` waits at line 163; the builtin branches and
variable assignment spawn nothing and wait for nothing. -/
def fgWaits : FgAction → Bool
  | FgAction.piped _ => true
  | FgAction.single _ => true
  | _ => false

/-- How many child processes the selected foreground action spawns:
`executePipedCommand` forks once per stage, `executeCommand` forks once. -/
def fgSpawnCount : FgAction → Nat
  | FgAction.piped tokens => (splitAtPipes tokens).length
  | FgAction.single _ => 1
  | _ => 0

/-- Everything one iteration of `main`'s command loop does with a line
(src/MinesShell.cpp lines 457-525): whether it exits the shell, the token
sequence handed to the two validators, whether a validator rejected,
the argument vector passed to `executeCommandInBackground` (when the
normalized line ends in `'&'`), and the foreground action then taken —
note the background branch (lines 483-486) does NOT `continue`, so the
dispatch chain below it still runs. -/
structure DispatchOutcome where
  exitShell : Bool := false
  validated : Option (List String) := none
  rejected : Bool := false
  bgSpawn : Option (List String) := none
  fgAction : Option FgAction := none
deriving DecidableEq, Repr

/-- The pipe / redirect / builtin dispatch chain of `main`
(src/MinesShell.cpp lines 488-525); `input2` is the popped string used by
the `'='` search at line 519. -/
def mainFgChoice (tokens : List String) (input2 : List Char) : FgAction :=
  if findTokenIndex tokens "|" ≠ -1 then FgAction.piped tokens
  else if findTokenIndex tokens ">" ≠ -1 ∨ findTokenIndex tokens "<" ≠ -1 then
    FgAction.single tokens
  else if tokens.head? = some "cd" then FgAction.builtinCd tokens
  else if tokens.head? = some "ls" ∧ tokens.length = 2 ∧
      tokens[1]? = some "-al" then FgAction.single tokens
  else if tokens.head? = some "ls" then FgAction.single tokens
  else if tokens.head? = some "rm" then FgAction.builtinRm
  else if tokens.head? = some "clear" then FgAction.builtinClear
  else if tokens.head? = some "emacs" then FgAction.single tokens
  else if '=' ∈ input2 then FgAction.assign input2
  else FgAction.single tokens

/-- One iteration of `main`'s command loop on raw input line `raw`
(src/MinesShell.cpp lines 457-525).  Faithful order: the `"exit"` test is
on the raw line (line 469); `checkWhiteSpaces` then `tokenize` produce
`shellTokens raw` (lines 471-473); empty-token skip;
`hasMultipleRedirectionsOrPipes` then `hasSyntaxErrors` (lines 477-481);
the background test is on the normalized string and `input.pop_back()`
removes `'&'` from that string only — `tokens` is left untouched
(lines 483-486) and the dispatch chain below still runs (no `continue`);
the `'='` search is on the popped string (line 519). -/
def mainDispatch (raw : List Char) : DispatchOutcome :=
  if raw = "exit".data then { exitShell := true }
  else if shellTokens raw = [] then {}
  else if hasMultipleRedirectionsOrPipes (shellTokens raw) then
    { validated := some (shellTokens raw), rejected := true }
  else if hasSyntaxErrors (shellTokens raw) then
    { validated := some (shellTokens raw), rejected := true }
  else
    { validated := some (shellTokens raw)
      bgSpawn :=
        if isBackgroundCommand (checkWhiteSpaces raw) then some (shellTokens raw)
        else none
      fgAction := some (mainFgChoice (shellTokens raw)
        (if isBackgroundCommand (checkWhiteSpaces raw) then
          (checkWhiteSpaces raw).dropLast
        else checkWhiteSpaces raw)) }

/-- Ghost bookkeeping of process identities across a session: `nextPid`
numbers forks in order; `bgPids` are the children forked by
`executeCommandInBackground` (the program itself stores these pids
nowhere — this field is the history of such forks); `fgWaited` are the
pids the foreground executors waited on (`executeCommand` waits on its own
child, `executePipedCommand` on each pid it pushed into its local
`child_pids`). -/
structure SessionState where
  nextPid : Nat
  bgPids : List Nat
  fgWaited : List Nat
deriving DecidableEq, Repr

/-- Process spawning and waiting caused by one dispatched line: a
background fork (never waited, never recorded by the program), then the
foreground action's forks, each of which is waited by its executor. -/
def stepLine (st : SessionState) (raw : List Char) : SessionState :=
  let o := mainDispatch raw
  let st1 :=
    match o.bgSpawn with
    | some _ =>
      { st with nextPid := st.nextPid + 1, bgPids := st.bgPids ++ [st.nextPid] }
    | none => st
  match o.fgAction with
  | some a =>
    if fgWaits a then
      { st1 with
        nextPid := st1.nextPid + fgSpawnCount a
        fgWaited := st1.fgWaited ++ List.range' st1.nextPid (fgSpawnCount a) }
    else st1
  | none => st1

/-- A whole interactive session over the given lines, stopping at
`"exit"` as `main` does. -/
def runSession (st : SessionState) : List (List Char) → SessionState
  | [] => st
  | raw :: rest =>
    if raw = "exit".data then st
    else runSession (stepLine st raw) rest

/-- The fresh initial session state. -/
def sessionStart : SessionState := ⟨0, [], []⟩

/-- Session bookkeeping invariant: every recorded pid is below the
counter, and no background pid was ever waited on. -/
def sessionInv (st : SessionState) : Prop :=
  (∀ p ∈ st.bgPids, p < st.nextPid) ∧
  (∀ p ∈ st.fgWaited, p < st.nextPid) ∧
  (∀ p ∈ st.bgPids, p ∉ st.fgWaited)


/-- `t` arises from `s` by inserting one whitespace character immediately
before or immediately after an occurrence of an operator character
(`|<>&`). -/
def OpWsStep (s t : List Char) : Prop :=
  ∃ u v c w, isSpecialC c = true ∧ isSpaceC w = true ∧
    (s = u ++ c :: v ∧ t = u ++ c :: w :: v ∨
     s = u ++ c :: v ∧ t = u ++ w :: c :: v)

/-- `s` and `t` differ only in whitespace adjacent to operator characters:
the reflexive-symmetric-transitive closure of single whitespace insertions
next to an operator character. -/
inductive OpWsEquiv : List Char → List Char → Prop
  | refl (s : List Char) : OpWsEquiv s s
  | tail (s t u : List Char) : OpWsEquiv s t → OpWsStep t u → OpWsEquiv s u
  | tailRev (s t u : List Char) : OpWsEquiv s t → OpWsStep u t → OpWsEquiv s u


/-- Operator characters are not whitespace. -/
lemma isSpecialC_not_space {c : Char} (h : isSpecialC c = true) :
    isSpaceC c = false := by
  simp only [isSpecialC, Bool.or_eq_true, decide_eq_true_eq] at h
  rcases h with ((rfl | rfl) | rfl) | rfl <;> decide

/-- A non-whitespace previous character never licenses an empty-accumulator
obligation in the tokenizer/scanner correspondence below. -/
lemma not_prev_space_inv {c : Char} (h : isSpaceC c = false) :
    ¬(some c = (none : Option Char) ∨
      ∃ p, some c = some p ∧ isSpaceC p = true) := by
  rintro (h' | ⟨p, hp, hsp⟩)
  · exact Option.noConfusion h'
  · cases Option.some.inj hp
    rw [hsp] at h
    exact Bool.noConfusion h

/-- Unfolding `tokenizeAux` at a whitespace character. -/
lemma tokenizeAux_space (acc : List Char) {c : Char} (l : List Char)
    (h : isSpaceC c = true) :
    tokenizeAux acc (c :: l) = flushAcc acc (tokenizeAux [] l) := by
  simp [tokenizeAux, h]

/-- Unfolding `tokenizeAux` at a non-whitespace character. -/
lemma tokenizeAux_nonspace (acc : List Char) {c : Char} (l : List Char)
    (h : isSpaceC c = false) :
    tokenizeAux acc (c :: l) = tokenizeAux (c :: acc) l := by
  simp [tokenizeAux, h]

/-- Unfolding `scanAux` at a whitespace character. -/
lemma scanAux_space (acc : List Char) {c : Char} (l : List Char)
    (h : isSpaceC c = true) :
    scanAux acc (c :: l) = flushAcc acc (scanAux [] l) := by
  simp [scanAux, h]

/-- Unfolding `scanAux` at an operator character. -/
lemma scanAux_special (acc : List Char) {c : Char} (l : List Char)
    (hc : isSpecialC c = true) :
    scanAux acc (c :: l) = flushAcc acc ([c] :: scanAux [] l) := by
  simp [scanAux, isSpecialC_not_space hc, hc]

/-- Unfolding `scanAux` at an ordinary word character. -/
lemma scanAux_word (acc : List Char) {c : Char} (l : List Char)
    (hs : isSpaceC c = false) (hc : isSpecialC c = false) :
    scanAux acc (c :: l) = scanAux (c :: acc) l := by
  simp [scanAux, hs, hc]

/-- Flushing an empty accumulator is the identity. -/
lemma flushAcc_nil (ts : List (List Char)) : flushAcc [] ts = ts := rfl

/-- Correspondence between the source pipeline
`tokenize ∘ checkWhiteSpaces` and the one-pass scanner `scanAux`: running
the whitespace tokenizer on the normalized text equals scanning the
original text, for any continuation state in which the accumulator is
empty whenever the previous character is absent or whitespace. -/
theorem tokenize_cws_eq_scan (s : List Char) :
    ∀ (prev : Option Char) (acc : List Char),
      ((prev = none ∨ ∃ p, prev = some p ∧ isSpaceC p = true) → acc = []) →
      tokenizeAux acc (cwsAux prev s) = scanAux acc s := by
  induction s with
  | nil => intro prev acc _; rfl
  | cons c rest ih =>
    intro prev acc hInv
    by_cases hc : isSpecialC c = true
    · have hcs : isSpaceC c = false := isSpecialC_not_space hc
      have hcws : cwsAux prev (c :: rest)
          = spaceBefore prev ++ c :: (spaceAfter rest ++ cwsAux (some c) rest) := by
        simp [cwsAux, hc]
      have key : tokenizeAux acc (cwsAux prev (c :: rest))
          = flushAcc acc
              (tokenizeAux [c] (spaceAfter rest ++ cwsAux (some c) rest)) := by
        rw [hcws]
        rcases hsb : spaceBefore prev with _ | ⟨b, sb'⟩
        · have hacc : acc = [] := by
            apply hInv
            match prev, hsb with
            | none, _ => exact Or.inl rfl
            | some p, hsb =>
              refine Or.inr ⟨p, rfl, ?_⟩
              by_cases hp : isSpaceC p = true
              · exact hp
              · exfalso
                have hp' : isSpaceC p = false := by
                  simpa [Bool.not_eq_true] using hp
                simp [spaceBefore, hp'] at hsb
          subst hacc
          rw [List.nil_append, tokenizeAux_nonspace [] _ hcs, flushAcc_nil]
        · have hb : b = ' ' ∧ sb' = [] := by
            match prev, hsb with
            | none, hsb => simp [spaceBefore] at hsb
            | some p, hsb =>
              by_cases hp : isSpaceC p = true
              · simp [spaceBefore, hp] at hsb
              · have hp' : isSpaceC p = false := by
                  simpa [Bool.not_eq_true] using hp
                simp [spaceBefore, hp'] at hsb
                exact ⟨hsb.1.symm, hsb.2⟩
          obtain ⟨rfl, rfl⟩ := hb
          rw [List.cons_append, List.nil_append,
            tokenizeAux_space acc _ (by decide),
            tokenizeAux_nonspace [] _ hcs]
      rcases rest with _ | ⟨d, rest'⟩
      · rw [key]
        rw [show spaceAfter [] = [] from rfl, show cwsAux (some c) [] = [] from rfl]
        rw [scanAux_special acc _ hc]
        rfl
      · by_cases hd : isSpaceC d = true
        · have hsa : spaceAfter (d :: rest') = [] := by simp [spaceAfter, hd]
          rw [key, hsa, List.nil_append]
          rw [ih (some c) [c] (fun h => absurd h (not_prev_space_inv hcs))]
          rw [scanAux_special acc _ hc, scanAux_space [c] _ hd,
            scanAux_space [] _ hd, flushAcc_nil]
          rfl
        · have hd' : isSpaceC d = false := by
            simpa [Bool.not_eq_true] using hd
          have hsa : spaceAfter (d :: rest') = [' '] := by
            simp [spaceAfter, hd']
          rw [key, hsa, List.cons_append, List.nil_append,
            tokenizeAux_space [c] _ (by decide),
            ih (some c) [] (fun _ => rfl),
            scanAux_special acc _ hc]
          rfl
    · have hc' : isSpecialC c = false := by
        simpa [Bool.not_eq_true] using hc
      have hcws : cwsAux prev (c :: rest) = c :: cwsAux (some c) rest := by
        simp [cwsAux, hc']
      by_cases hs : isSpaceC c = true
      · rw [hcws, tokenizeAux_space acc _ hs,
          ih (some c) [] (fun _ => rfl), scanAux_space acc _ hs]
      · have hs' : isSpaceC c = false := by
          simpa [Bool.not_eq_true] using hs
        rw [hcws, tokenizeAux_nonspace acc _ hs',
          ih (some c) (c :: acc) (fun h => absurd h (not_prev_space_inv hs')),
          scanAux_word acc _ hs' hc']

/-- The source composition — normalize, then split on whitespace — equals
the one-pass scanner. -/
theorem tokenizeChars_checkWhiteSpaces (s : List Char) :
    tokenizeChars (checkWhiteSpaces s) = scanTokens s :=
  tokenize_cws_eq_scan s none [] (fun _ => rfl)

/-- The scanner treats two tails identically beneath a common head
character if they scan identically from every accumulator. -/
lemma scanAux_cons_congr (x : Char) (l1 l2 : List Char)
    (h : ∀ acc, scanAux acc l1 = scanAux acc l2) (acc : List Char) :
    scanAux acc (x :: l1) = scanAux acc (x :: l2) := by
  by_cases hx : isSpaceC x = true
  · rw [scanAux_space acc l1 hx, scanAux_space acc l2 hx, h]
  · have hx' : isSpaceC x = false := by simpa [Bool.not_eq_true] using hx
    by_cases hsx : isSpecialC x = true
    · rw [scanAux_special acc l1 hsx, scanAux_special acc l2 hsx, h]
    · have hsx' : isSpecialC x = false := by
        simpa [Bool.not_eq_true] using hsx
      rw [scanAux_word acc l1 hx' hsx', scanAux_word acc l2 hx' hsx', h]

/-- Inserting a whitespace character right after an operator character
does not change the scan. -/
lemma scanAux_insert_after {c w : Char} (hc : isSpecialC c = true)
    (hw : isSpaceC w = true) (v : List Char) :
    ∀ (u acc : List Char),
      scanAux acc (u ++ c :: w :: v) = scanAux acc (u ++ c :: v) := by
  intro u
  induction u with
  | nil =>
    intro acc
    rw [List.nil_append, List.nil_append, scanAux_special acc (w :: v) hc,
      scanAux_special acc v hc, scanAux_space [] v hw, flushAcc_nil]
  | cons x u' ih =>
    intro acc
    rw [List.cons_append, List.cons_append]
    exact scanAux_cons_congr x _ _ ih acc

/-- Inserting a whitespace character right before an operator character
does not change the scan. -/
lemma scanAux_insert_before {c w : Char} (hc : isSpecialC c = true)
    (hw : isSpaceC w = true) (v : List Char) :
    ∀ (u acc : List Char),
      scanAux acc (u ++ w :: c :: v) = scanAux acc (u ++ c :: v) := by
  intro u
  induction u with
  | nil =>
    intro acc
    rw [List.nil_append, List.nil_append, scanAux_space acc (c :: v) hw,
      scanAux_special [] v hc, flushAcc_nil, scanAux_special acc v hc]
  | cons x u' ih =>
    intro acc
    rw [List.cons_append, List.cons_append]
    exact scanAux_cons_congr x _ _ ih acc

/-- One whitespace insertion next to an operator leaves the scan
unchanged. -/
lemma scanTokens_opWsStep {s t : List Char} (h : OpWsStep s t) :
    scanTokens s = scanTokens t := by
  obtain ⟨u, v, c, w, hc, hw, ⟨rfl, rfl⟩ | ⟨rfl, rfl⟩⟩ := h
  · exact (scanAux_insert_after hc hw v u []).symm
  · exact (scanAux_insert_before hc hw v u []).symm

/-- `cwsAux` of a non-empty input is non-empty. -/
lemma cwsAux_ne_nil (s : List Char) (prev : Option Char) (hs : s ≠ []) :
    cwsAux prev s ≠ [] := by
  match s, hs with
  | c :: rest, _ =>
    by_cases hc : isSpecialC c = true
    · simp [cwsAux, hc]
    · have hc' : isSpecialC c = false := by simpa [Bool.not_eq_true] using hc
      simp [cwsAux, hc']

/-- Whitespace normalization preserves the final character. -/
lemma cwsAux_getLast (s : List Char) :
    ∀ (prev : Option Char), s ≠ [] →
      (cwsAux prev s).getLast? = s.getLast? := by
  induction s with
  | nil => intro _ h; exact absurd rfl h
  | cons c rest ih =>
    intro prev _
    by_cases hc : isSpecialC c = true
    · have hcws : cwsAux prev (c :: rest)
          = spaceBefore prev ++ c :: (spaceAfter rest ++ cwsAux (some c) rest) := by
        simp [cwsAux, hc]
      rw [hcws, List.getLast?_append_of_ne_nil _ (List.cons_ne_nil _ _)]
      rcases rest with _ | ⟨d, rest'⟩
      · rfl
      · have hne : cwsAux (some c) (d :: rest') ≠ [] :=
          cwsAux_ne_nil _ _ (List.cons_ne_nil _ _)
        have hne2 : spaceAfter (d :: rest') ++ cwsAux (some c) (d :: rest') ≠ [] := by
          intro hcontra
          exact hne (List.append_eq_nil.mp hcontra).2
        rcases hx : spaceAfter (d :: rest') ++ cwsAux (some c) (d :: rest') with
          _ | ⟨y, ys⟩
        · exact absurd hx hne2
        · rw [List.getLast?_cons_cons, ← hx,
            List.getLast?_append_of_ne_nil _ hne, ih (some c) (List.cons_ne_nil _ _),
            List.getLast?_cons_cons]
    · have hc' : isSpecialC c = false := by simpa [Bool.not_eq_true] using hc
      have hcws : cwsAux prev (c :: rest) = c :: cwsAux (some c) rest := by
        simp [cwsAux, hc']
      rcases rest with _ | ⟨d, rest'⟩
      · rw [hcws]; rfl
      · have hne : cwsAux (some c) (d :: rest') ≠ [] :=
          cwsAux_ne_nil _ _ (List.cons_ne_nil _ _)
        rcases hx : cwsAux (some c) (d :: rest') with _ | ⟨y, ys⟩
        · exact absurd hx hne
        · rw [hcws, hx, List.getLast?_cons_cons, ← hx,
            ih (some c) (List.cons_ne_nil _ _), List.getLast?_cons_cons]

/-- Flushing an accumulator in front of a non-empty token list does not
change the last token. -/
lemma flushAcc_getLast (acc : List Char) (ts : List (List Char))
    (h : ts ≠ []) : (flushAcc acc ts).getLast? = ts.getLast? := by
  match acc with
  | [] => rfl
  | a :: as =>
    match ts, h with
    | t :: ts', _ =>
      show ((a :: as).reverse :: t :: ts').getLast? = (t :: ts').getLast?
      rw [List.getLast?_cons_cons]

/-- When the text ends in an operator character, the scan's last token is
that single-character operator token. -/
lemma scanAux_getLast_special :
    ∀ (s : List Char) (acc : List Char) {c : Char}, isSpecialC c = true →
      s.getLast? = some c → (scanAux acc s).getLast? = some [c] := by
  intro s
  induction s with
  | nil => intro acc c _ h; exact Option.noConfusion h
  | cons d rest ih =>
    intro acc c hc hlast
    rcases rest with _ | ⟨e, rest'⟩
    · have hd : d = c := by
        simpa using hlast
      subst hd
      rw [scanAux_special acc [] hc, flushAcc_getLast _ _ (List.cons_ne_nil _ _)]
      rfl
    · rw [List.getLast?_cons_cons] at hlast
      have htail := ih [] hc hlast
      have hne : scanAux [] (e :: rest') ≠ [] := by
        intro hcontra
        rw [hcontra] at htail
        exact Option.noConfusion htail
      by_cases hd : isSpaceC d = true
      · rw [scanAux_space acc (e :: rest') hd, flushAcc_getLast _ _ hne, htail]
      · have hd' : isSpaceC d = false := by simpa [Bool.not_eq_true] using hd
        by_cases hsd : isSpecialC d = true
        · rw [scanAux_special acc (e :: rest') hsd]
          rcases hx : scanAux [] (e :: rest') with _ | ⟨y, ys⟩
          · exact absurd hx hne
          · rw [flushAcc_getLast _ _ (List.cons_ne_nil _ _),
              List.getLast?_cons_cons, ← hx, htail]
        · have hsd' : isSpecialC d = false := by
            simpa [Bool.not_eq_true] using hsd
          rw [scanAux_word acc (e :: rest') hd' hsd']
          exact ih (d :: acc) hc hlast

/-- A token absent from a prefix is first found at the position appended
right after that prefix. -/
lemma findTokenIndexAux_append_self (op : String) :
    ∀ (ws : List String), op ∉ ws →
      findTokenIndexAux op (ws ++ [op]) = some ws.length := by
  intro ws
  induction ws with
  | nil => intro _; simp [findTokenIndexAux]
  | cons w ws' ih =>
    intro h
    have hw : ¬w = op := fun hwo => h (hwo ▸ List.mem_cons_self w ws')
    have h' : op ∉ ws' := fun hm => h (List.mem_cons_of_mem w hm)
    simp [findTokenIndexAux, hw, ih h']

/-- `findTokenIndex` of a token occurring exactly at the end. -/
lemma findTokenIndex_append_self (ws : List String) (op : String)
    (h : op ∉ ws) : findTokenIndex (ws ++ [op]) op = (ws.length : Int) := by
  unfold findTokenIndex
  rw [findTokenIndexAux_append_self op ws h]

/-- Whatever `findTokenIndexAux` finds is a genuine in-range first
occurrence. -/
lemma findTokenIndexAux_some (token : String) :
    ∀ (tokens : List String) (i : Nat),
      findTokenIndexAux token tokens = some i →
      i < tokens.length ∧ tokens[i]? = some token := by
  intro tokens
  induction tokens with
  | nil => intro i h; exact Option.noConfusion h
  | cons t rest ih =>
    intro i h
    by_cases ht : t = token
    · simp [findTokenIndexAux, ht] at h
      subst h
      simp [ht]
    · simp [findTokenIndexAux, ht] at h
      obtain ⟨j, hj, rfl⟩ := h
      obtain ⟨hlt, hget⟩ := ih j hj
      exact ⟨by simpa using Nat.succ_lt_succ hlt, by simpa using hget⟩

/-- When the token occurs in the list, `findTokenIndexAux` finds
something. -/
lemma findTokenIndexAux_isSome (token : String) :
    ∀ (tokens : List String), token ∈ tokens →
      ∃ i, findTokenIndexAux token tokens = some i := by
  intro tokens
  induction tokens with
  | nil => intro h; exact absurd h (List.not_mem_nil token)
  | cons t rest ih =>
    intro h
    by_cases ht : t = token
    · exact ⟨0, by simp [findTokenIndexAux, ht]⟩
    · have hm : token ∈ rest := by
        rcases List.mem_cons.mp h with h' | h'
        · exact absurd h'.symm ht
        · exact h'
      obtain ⟨i, hi⟩ := ih hm
      exact ⟨i + 1, by simp [findTokenIndexAux, ht, hi]⟩

/-- Pipe-allocation count of the launch loop over arbitrary iteration
indices. -/
lemma launchEventsAux_countP_pipe (n : Nat) :
    ∀ (l : List Nat),
      List.countP LEv.isPipeAlloc (launchEventsAux n l)
        = l.countP (fun i => decide (i + 1 < n)) := by
  intro l
  induction l with
  | nil => rfl
  | cons i rest ih =>
    show List.countP LEv.isPipeAlloc
        ((if i + 1 < n then [LEv.pipeAlloc i] else []) ++
          LEv.forkStage i :: launchEventsAux n rest) = _
    by_cases h : i + 1 < n <;>
      simp [h, List.countP_append, List.countP_cons, List.countP_nil,
        LEv.isPipeAlloc, ih, Nat.add_comm]

/-- Fork count of the launch loop over arbitrary iteration indices. -/
lemma launchEventsAux_countP_fork (n : Nat) :
    ∀ (l : List Nat),
      List.countP LEv.isForkStage (launchEventsAux n l) = l.length := by
  intro l
  induction l with
  | nil => rfl
  | cons i rest ih =>
    show List.countP LEv.isForkStage
        ((if i + 1 < n then [LEv.pipeAlloc i] else []) ++
          LEv.forkStage i :: launchEventsAux n rest) = _
    by_cases h : i + 1 < n <;>
      simp [h, List.countP_append, List.countP_cons, List.countP_nil,
        LEv.isForkStage, ih, Nat.add_comm]

/-- Among the loop indices `0..n-1`, exactly the first `n-1` trigger a
pipe allocation. -/
lemma range_countP_pipe_cond (n : Nat) :
    (List.range n).countP (fun i => decide (i + 1 < n)) = n - 1 := by
  cases n with
  | zero => rfl
  | succ m =>
    rw [List.range_succ, List.countP_append]
    have hall : (List.range m).countP (fun i => decide (i + 1 < m + 1)) =
        (List.range m).length := by
      apply List.countP_eq_length.mpr
      intro a ha
      simpa using Nat.succ_lt_succ (List.mem_range.mp ha)
    rw [hall]
    simp

/-- One dispatched line preserves the session invariant: new pids are
fresh, background pids go only to `bgPids`, foreground pids only to
`fgWaited`. -/
lemma stepLine_inv (st : SessionState) (raw : List Char)
    (h : sessionInv st) : sessionInv (stepLine st raw) := by
  obtain ⟨hbg, hfg, hdisj⟩ := h
  unfold stepLine
  set o := mainDispatch raw with ho
  have step1 :
      ∀ st1 : SessionState, sessionInv st1 →
        sessionInv
          (match o.fgAction with
           | some a =>
             if fgWaits a then
               { st1 with
                 nextPid := st1.nextPid + fgSpawnCount a
                 fgWaited := st1.fgWaited ++
                   List.range' st1.nextPid (fgSpawnCount a) }
             else st1
           | none => st1) := by
    intro st1 h1
    obtain ⟨h1bg, h1fg, h1disj⟩ := h1
    cases o.fgAction with
    | none => exact ⟨h1bg, h1fg, h1disj⟩
    | some a =>
      by_cases hw : fgWaits a = true
      · simp only [hw, if_true]
        refine ⟨?_, ?_, ?_⟩
        · intro p hp
          exact Nat.lt_of_lt_of_le (h1bg p hp) (Nat.le_add_right _ _)
        · intro p hp
          rcases List.mem_append.mp hp with hp' | hp'
          · exact Nat.lt_of_lt_of_le (h1fg p hp') (Nat.le_add_right _ _)
          · exact (List.mem_range'_1.mp hp').2
        · intro p hp hmem
          rcases List.mem_append.mp hmem with hm | hm
          · exact h1disj p hp hm
          · exact Nat.lt_irrefl p
              (Nat.lt_of_lt_of_le (h1bg p hp) (List.mem_range'_1.mp hm).1)
      · simp only [Bool.not_eq_true] at hw
        simp only [hw, Bool.false_eq_true, if_false]
        exact ⟨h1bg, h1fg, h1disj⟩
  cases hsp : o.bgSpawn with
  | none =>
    simp only [hsp]
    exact step1 st ⟨hbg, hfg, hdisj⟩
  | some tk =>
    simp only [hsp]
    apply step1
    refine ⟨?_, ?_, ?_⟩
    · intro p hp
      rcases List.mem_append.mp hp with hp' | hp'
      · exact Nat.lt_of_lt_of_le (hbg p hp') (Nat.le_succ _)
      · simp only [List.mem_singleton] at hp'
        exact hp' ▸ Nat.lt_succ_self _
    · intro p hp
      exact Nat.lt_of_lt_of_le (hfg p hp) (Nat.le_succ _)
    · intro p hp
      rcases List.mem_append.mp hp with hp' | hp'
      · exact hdisj p hp'
      · simp only [List.mem_singleton] at hp'
        intro hmem
        exact Nat.lt_irrefl p (hp' ▸ hfg p hmem)

/-- Whole sessions preserve the invariant. -/
lemma runSession_inv (lines : List (List Char)) :
    ∀ (st : SessionState), sessionInv st →
      sessionInv (runSession st lines) := by
  induction lines with
  | nil => intro st h; exact h
  | cons raw rest ih =>
    intro st h
    unfold runSession
    by_cases hexit : raw = "exit".data
    · simp only [hexit, if_true]
      exact h
    · simp only [hexit, if_false]
      exact ih _ (stepLine_inv st raw h)

/-- An element of a list survives the two-position erase unless it sits at
one of the two erased positions. -/
lemma mem_eraseTwoAt_or (l : List String) (r : Nat) (x : String)
    (hx : x ∈ l) :
    x ∈ eraseTwoAt l r ∨ l[r]? = some x ∨ l[r + 1]? = some x := by
  obtain ⟨j, hj, hget⟩ := List.getElem_of_mem hx
  by_cases hjr : j = r
  · subst hjr
    right; left
    rw [List.getElem?_eq_getElem hj, hget]
  · by_cases hjr1 : j = r + 1
    · subst hjr1
      right; right
      rw [List.getElem?_eq_getElem hj, hget]
    · left
      unfold eraseTwoAt
      rcases Nat.lt_or_ge j r with hlt | hge
      · refine List.mem_append.mpr (Or.inl (List.getElem?_mem
          (show (l.take r)[j]? = some x from ?_)))
        rw [List.getElem?_take, if_pos hlt, List.getElem?_eq_getElem hj, hget]
      · have hge2 : r + 2 ≤ j := by omega
        refine List.mem_append.mpr (Or.inr (List.getElem?_mem
          (show (l.drop (r + 2))[j - (r + 2)]? = some x from ?_)))
        rw [List.getElem?_drop]
        have heq : r + 2 + (j - (r + 2)) = j := by omega
        rw [heq, List.getElem?_eq_getElem hj, hget]

/-- When `findTokenIndex` reports a hit, the token really sits at that
index. -/
lemma findTokenIndex_getElem (cmd : List String) (tk : String)
    (h : findTokenIndex cmd tk ≠ -1) :
    cmd[(findTokenIndex cmd tk).toNat]? = some tk := by
  unfold findTokenIndex at h ⊢
  cases haux : findTokenIndexAux tk cmd with
  | none =>
    rw [haux] at h
    exact absurd rfl h
  | some j =>
    show cmd[((j : Int)).toNat]? = some tk
    rw [Int.toNat_natCast]
    exact (findTokenIndexAux_some tk cmd j haux).2

/-- Argument vector of a non-first pipeline stage: either the stage's
word list verbatim, or — only on the last stage, with a successful open of
a present `>`-with-target pair — that list with the first `>` and its
following token erased. -/
lemma pipelineChild_argv_nonfirst (cmds : List (List String)) (i : Nat)
    (inOk outOk : Bool) (h0 : i ≠ 0) :
    (pipelineChild cmds i inOk outOk).argv = cmds[i]?.getD [] ∨
    (i = cmds.length - 1 ∧ outOk = true ∧
      findTokenIndex (cmds[i]?.getD []) ">" ≠ -1 ∧
      findTokenIndex (cmds[i]?.getD []) ">" + 1
        < ((cmds[i]?.getD []).length : Int) ∧
      (pipelineChild cmds i inOk outOk).argv
        = eraseTwoAt (cmds[i]?.getD [])
            (findTokenIndex (cmds[i]?.getD []) ">").toNat) := by
  simp only [pipelineChild, h0, false_and, if_false]
  split
  · left; rfl
  · split
    · rename_i hred
      split
      · rename_i hOk
        right
        exact ⟨hred.1, by simp [hOk], hred.2.1, hred.2.2, rfl⟩
      · left; rfl
    · left; rfl

/-- Argument vector of stage 0 of a multi-stage pipeline: either the
stage's word list verbatim, or — when a `<`-with-target pair is present —
that list with the first `<` and its following token erased (the erase at
src/MinesShell.cpp line 227 happens whether or not the open succeeds). -/
lemma pipelineChild_argv_first (cmds : List (List String))
    (inOk outOk : Bool) (hn : 1 < cmds.length) :
    (pipelineChild cmds 0 inOk outOk).argv = cmds[0]?.getD [] ∨
    (findTokenIndex (cmds[0]?.getD []) "<" ≠ -1 ∧
      findTokenIndex (cmds[0]?.getD []) "<" + 1
        < ((cmds[0]?.getD []).length : Int) ∧
      (pipelineChild cmds 0 inOk outOk).argv
        = eraseTwoAt (cmds[0]?.getD [])
            (findTokenIndex (cmds[0]?.getD []) "<").toNat) := by
  have h01 : 0 < cmds.length - 1 := by omega
  by_cases hred : findTokenIndex (cmds[0]?.getD []) "<" ≠ -1 ∧
      findTokenIndex (cmds[0]?.getD []) "<" + 1
        < ((cmds[0]?.getD []).length : Int)
  · right
    refine ⟨hred.1, hred.2, ?_⟩
    simp [pipelineChild, h01, hred.1, hred.2]
  · left
    simp only [pipelineChild]
    rw [if_pos h01]
    simp [hred]

example :
    pipelineChild [["a", ">", "f"], ["b"]] 0 true true
      = ⟨Binding.inherited, Binding.pipeWrite 0, none, [], ["a", ">", "f"]⟩ := by
  decide
example :
    pipelineChild [["cat", "<", "in.txt"], ["wc", "-l"]] 0 true true
      = ⟨Binding.file "in.txt", Binding.pipeWrite 0, none, [],
          ["cat"]⟩ := by decide
example :
    pipelineChild [["cat", "<", "no.txt"], ["wc", "-l"]] 0 false true
      = ⟨Binding.inherited, Binding.pipeWrite 0, none,
          ["syntax error, unexpected PIPE, expecting STRING"], ["cat"]⟩ := by
  decide
example :
    pipelineChild [["cat"], ["wc", ">", "out"]] 1 true false
      = ⟨Binding.pipeRead 0, Binding.inherited, some 1,
          ["open for output redirection failed"], ["wc", ">", "out"]⟩ := by
  decide
example : splitAtPipes ["a", "|", "b"] = [["a"], ["b"]] := by decide
example : splitAtPipes ["a", "|"] = [["a"]] := by decide

example : mainDispatch "sleep 5&".data
    = { validated := some ["sleep", "5", "&"]
        bgSpawn := some ["sleep", "5", "&"]
        fgAction := some (FgAction.single ["sleep", "5", "&"]) } := by decide
example : mainDispatch "cat < in.txt".data
    = { validated := some ["cat", "<", "in.txt"]
        fgAction := some (FgAction.single ["cat", "<", "in.txt"]) } := by decide
example : mainDispatch "a | b".data
    = { validated := some ["a", "|", "b"]
        fgAction := some (FgAction.piped ["a", "|", "b"]) } := by decide
example : runSession sessionStart ["ls &".data, "pwd".data, "pwd".data]
    = ⟨4, [0], [1, 2, 3]⟩ := by decide

example : shellTokens "a|b".data = ["a", "|", "b"] := by decide
example : shellTokens "cat < in.txt | wc -l".data
    = ["cat", "<", "in.txt", "|", "wc", "-l"] := by decide
example : shellTokens "sleep 5&".data = ["sleep", "5", "&"] := by decide
example : hasSyntaxErrors ["ls", "|"] = true := by decide
example : hasSyntaxErrors ["a", "|", "&"] = false := by decide
example : hasSyntaxErrors ["cat", "<", "x", ">"] = false := by decide
example : hasMultipleRedirectionsOrPipes ["a", ">", "f", "|", "b"] = false := by
  decide
example : findTokenIndex ["a", ">", "f"] ">" = 1 := by decide
example : findTokenIndex ["a", "b"] "|" = -1 := by decide

/-- Claim C1 (refuted by the code — the claim states that for a line whose
trailing token is the background marker `&`, the control loop returns to
prompting without any foreground wait).  For the line `sleep 5&` the model
of `main` spawns the background copy and then, because the background
branch at src/MinesShell.cpp lines 483-486 does not `continue`, falls
through to the dispatch chain and runs `executeCommand` on the very same
tokens — which forks again and performs a blocking `waitpid`
(line 163).  So a foreground wait IS performed for that line. -/
theorem c1_background_line_still_waits :
    (mainDispatch "sleep 5&".data).bgSpawn = some ["sleep", "5", "&"] ∧
    (mainDispatch "sleep 5&".data).fgAction
      = some (FgAction.single ["sleep", "5", "&"]) ∧
    fgWaits (FgAction.single ["sleep", "5", "&"]) = true := by decide

/-- Claim C2 counterexample: for a two-stage foreground pipeline whose
last stage terminates with status 7, the executor's wait loop observes the
statuses but the value returned to the control loop is `none` — the C++
function is `void` — so the reported result is not the terminal status of
the last stage. -/
theorem c2_counterexample :
    (executePipedCommandOutcome [["a"], ["b"]] (fun _ => 7)).observedStatuses
      = [7, 7] ∧
    (executePipedCommandOutcome [["a"], ["b"]] (fun _ => 7)).returnedStatus
      = none ∧
    (none : Option Int) ≠ some 7 := by decide

/-- Claim C2 (amended): the foreground pipeline executor spawns every
stage regardless of the statuses of earlier stages (spawning never
consults them), waits for each stage in spawn order, observes every
stage's status — the last stage's included — and returns no exit status to
the control loop. -/
theorem c2_amended (cmds : List (List String)) (statusOf : Nat → Int) :
    (executePipedCommandOutcome cmds statusOf).spawnedArgvs.length
      = cmds.length ∧
    (executePipedCommandOutcome cmds statusOf).waitOrder
      = List.range cmds.length ∧
    (executePipedCommandOutcome cmds statusOf).observedStatuses
      = (List.range cmds.length).map statusOf ∧
    (executePipedCommandOutcome cmds statusOf).returnedStatus = none := by
  refine ⟨?_, rfl, rfl, rfl⟩
  simp [executePipedCommandOutcome]

/-- Claim C3 counterexample: the token sequence `a > f | b` — an output
redirect on a non-last stage — passes both validators, the pipeline is not
rejected (both stages are spawned), and the redirect tokens `>` and `f`
are passed verbatim to stage 0 as command arguments. -/
theorem c3_counterexample :
    hasMultipleRedirectionsOrPipes ["a", ">", "f", "|", "b"] = false ∧
    hasSyntaxErrors ["a", ">", "f", "|", "b"] = false ∧
    splitAtPipes ["a", ">", "f", "|", "b"] = [["a", ">", "f"], ["b"]] ∧
    (pipelineChild [["a", ">", "f"], ["b"]] 0 true true).argv
      = ["a", ">", "f"] ∧
    ">" ∈ (pipelineChild [["a", ">", "f"], ["b"]] 0 true true).argv ∧
    (executePipedCommandOutcome [["a", ">", "f"], ["b"]]
      (fun _ => 0)).spawnedArgvs.length = 2 := by decide

/-- Claim C3 (amended): `executePipedCommand` never rejects a pipeline —
it spawns one process per stage unconditionally.  Redirect tokens on an
interior stage are neither rejected nor extracted: the stage's argument
vector is passed to `execvp` verbatim, redirect tokens included, and the
stage does not exit early.  Wrong-end redirects are never extracted
either: a non-first stage never performs input redirection (its standard
input stays the pipe read end) and its `<` token survives into the
argument vector — except in the one case where it is the token right
after the last stage's extracted `>`, i.e. it is consumed as that
redirect's filename; symmetrically a non-last stage never performs output
redirection (its standard output stays the pipe write end) and its `>`
token survives into the argument vector — except when it is consumed as
the filename of stage 0's extracted `<`. -/
theorem c3_amended (cmds : List (List String)) (statusOf : Nat → Int)
    (i : Nat) (inOk outOk : Bool) (hi : i < cmds.length) :
    (executePipedCommandOutcome cmds statusOf).spawnedArgvs.length
      = cmds.length ∧
    (0 < i → i + 1 < cmds.length →
      (pipelineChild cmds i inOk outOk).argv = cmds[i]?.getD [] ∧
      (pipelineChild cmds i inOk outOk).exited = none) ∧
    (0 < i →
      (pipelineChild cmds i inOk outOk).stdinB = Binding.pipeRead (i - 1) ∧
      ("<" ∈ cmds[i]?.getD [] →
        "<" ∈ (pipelineChild cmds i inOk outOk).argv ∨
        (i + 1 = cmds.length ∧ outOk = true ∧
          findTokenIndex (cmds[i]?.getD []) ">" ≠ -1 ∧
          findTokenIndex (cmds[i]?.getD []) ">" + 1
            < ((cmds[i]?.getD []).length : Int) ∧
          (cmds[i]?.getD [])[(findTokenIndex (cmds[i]?.getD []) ">").toNat + 1]?
            = some "<"))) ∧
    (i + 1 < cmds.length →
      (pipelineChild cmds i inOk outOk).stdoutB = Binding.pipeWrite i ∧
      (">" ∈ cmds[i]?.getD [] →
        ">" ∈ (pipelineChild cmds i inOk outOk).argv ∨
        (i = 0 ∧
          findTokenIndex (cmds[i]?.getD []) "<" ≠ -1 ∧
          findTokenIndex (cmds[i]?.getD []) "<" + 1
            < ((cmds[i]?.getD []).length : Int) ∧
          (cmds[i]?.getD [])[(findTokenIndex (cmds[i]?.getD []) "<").toNat + 1]?
            = some ">"))) := by
  refine ⟨by simp [executePipedCommandOutcome], ?_, ?_, ?_⟩
  · intro h1 h2
    have hi0 : i ≠ 0 := Nat.pos_iff_ne_zero.mp h1
    have hlt : i < cmds.length - 1 := by omega
    exact ⟨by simp [pipelineChild, hi0, hlt], by simp [pipelineChild, hi0, hlt]⟩
  · intro hpos
    have h0 : i ≠ 0 := Nat.pos_iff_ne_zero.mp hpos
    constructor
    · simp only [pipelineChild]
      repeat' split
      all_goals simp [h0]
    · intro hmem
      rcases pipelineChild_argv_nonfirst cmds i inOk outOk h0 with hA |
        ⟨hlast, hOk, hne, hltx, hA⟩
      · left; rw [hA]; exact hmem
      · rcases mem_eraseTwoAt_or (cmds[i]?.getD [])
          (findTokenIndex (cmds[i]?.getD []) ">").toNat "<" hmem with
          hm | hm | hm
        · left; rw [hA]; exact hm
        · rw [findTokenIndex_getElem _ _ hne] at hm
          simp at hm
        · right
          exact ⟨by omega, hOk, hne, hltx, hm⟩
  · intro hlt2
    constructor
    · have hltn : i < cmds.length - 1 := by omega
      simp [pipelineChild, hltn]
    · intro hmem
      by_cases h0 : i = 0
      · subst h0
        rcases pipelineChild_argv_first cmds inOk outOk (by omega) with hA |
          ⟨hne, hltx, hA⟩
        · left; rw [hA]; exact hmem
        · rcases mem_eraseTwoAt_or (cmds[0]?.getD [])
            (findTokenIndex (cmds[0]?.getD []) "<").toNat ">" hmem with
            hm | hm | hm
          · left; rw [hA]; exact hm
          · rw [findTokenIndex_getElem _ _ hne] at hm
            simp at hm
          · right
            exact ⟨rfl, hne, hltx, hm⟩
      · rcases pipelineChild_argv_nonfirst cmds i inOk outOk h0 with hA |
          ⟨hlast, _, _, _, _⟩
        · left; rw [hA]; exact hmem
        · exfalso; omega

/-- Witness for C3 (amended): an interior stage keeps its redirect token
verbatim; a `<` on a non-first (here: last) stage and a `>` on a non-last
(here: first) stage both survive into the argument vectors. -/
theorem c3_witness :
    (pipelineChild [["a"], ["b", ">", "f"], ["c"]] 1 true true).argv
      = ["b", ">", "f"] ∧
    "<" ∈ (pipelineChild [["a"], ["b", "<", "f"]] 1 true true).argv ∧
    ">" ∈ (pipelineChild [["a", ">", "f"], ["b"]] 0 true true).argv := by
  have h1 := c3_amended [["a"], ["b", ">", "f"], ["c"]] (fun _ => 0) 1
    true true (by decide)
  have h2 := c3_amended [["a"], ["b", "<", "f"]] (fun _ => 0) 1
    true true (by decide)
  have h3 := c3_amended [["a", ">", "f"], ["b"]] (fun _ => 0) 0
    true true (by decide)
  refine ⟨(h1.2.1 (by decide) (by decide)).1.trans (by decide), ?_, ?_⟩
  · rcases (h2.2.2.1 (by decide)).2 (by decide) with h | h
    · exact h
    · exact absurd h.2.2.1 (by decide)
  · rcases (h3.2.2.2 (by decide)).2 (by decide) with h | h
    · exact h
    · exact absurd h.2.1 (by decide)

/-- Claim C4 (refuted by the code in exactly one of its four open sites —
the claim states every redirect-open failure inside a child makes that
child exit non-zero after a message).  For `cat < no.txt | wc -l` with the
`open` of `no.txt` failing, the stage-0 child prints its (mislabelled)
message but does NOT exit — the `exit(EXIT_FAILURE)` at
src/MinesShell.cpp line 223 is commented out — and proceeds to `execvp`
with inherited standard input; the sibling's and the single-command
executor's output-redirect failure paths do exit with status 1, as the
last conjunct shows for contrast. -/
theorem c4_input_open_failure_child_does_not_exit :
    (pipelineChild [["cat", "<", "no.txt"], ["wc", "-l"]] 0 false true).exited
      = none ∧
    (pipelineChild [["cat", "<", "no.txt"], ["wc", "-l"]] 0 false true).msgs
      = ["syntax error, unexpected PIPE, expecting STRING"] ∧
    (pipelineChild [["cat", "<", "no.txt"], ["wc", "-l"]] 0 false true).stdinB
      = Binding.inherited ∧
    (pipelineChild [["cat", "<", "no.txt"], ["wc", "-l"]] 0 false true).argv
      = ["cat"] ∧
    (pipelineChild [["cat"], ["wc", "-l", ">", "out"]] 1 true false).exited
      = some 1 := by decide

/-- Claim C5: for a validated pipeline of `N ≥ 1` stages, the launch loop
of `executePipedCommand` allocates exactly `N-1` pipe pairs and forks
exactly `N` processes, and pipe `k` connects stage `k`'s standard output
(bound to its write end) to stage `k+1`'s standard input (bound to its
read end), whatever the redirect-open outcomes. -/
theorem c5_pipe_fabric (cmds : List (List String)) (h : 1 ≤ cmds.length) :
    List.countP LEv.isPipeAlloc (launchEvents cmds.length)
      = cmds.length - 1 ∧
    List.countP LEv.isForkStage (launchEvents cmds.length) = cmds.length ∧
    ∀ k, k + 1 < cmds.length → ∀ inOk outOk,
      (pipelineChild cmds k inOk outOk).stdoutB = Binding.pipeWrite k ∧
      (pipelineChild cmds (k + 1) inOk outOk).stdinB = Binding.pipeRead k := by
  refine ⟨?_, ?_, ?_⟩
  · rw [launchEvents, launchEventsAux_countP_pipe, range_countP_pipe_cond]
  · rw [launchEvents, launchEventsAux_countP_fork, List.length_range]
  · intro k hk inOk outOk
    refine ⟨?_, ?_⟩
    · have hlt : k < cmds.length - 1 := by omega
      simp [pipelineChild, hlt]
    · have h0 : k + 1 ≠ 0 := Nat.succ_ne_zero k
      simp only [pipelineChild]
      repeat' split
      all_goals simp [h0]

/-- Witness for C5 on the two-stage pipeline `[["a"], ["b"]]`. -/
theorem c5_witness :
    List.countP LEv.isPipeAlloc (launchEvents 2) = 1 ∧
    List.countP LEv.isForkStage (launchEvents 2) = 2 ∧
    (pipelineChild [["a"], ["b"]] 0 true true).stdoutB
      = Binding.pipeWrite 0 ∧
    (pipelineChild [["a"], ["b"]] 1 true true).stdinB
      = Binding.pipeRead 0 := by
  have h := c5_pipe_fabric [["a"], ["b"]] (by decide)
  exact ⟨h.1, h.2.1, (h.2.2 0 (by decide) true true).1,
    (h.2.2 0 (by decide) true true).2⟩

/-- Claim C6 counterexample: for the line `sleep 1&` the validators
receive the token sequence `["sleep", "1", "&"]` — the marker is NOT
stripped before the remaining checks run — and the background executor's
argument vector is that same sequence, marker included.  Moreover the
marker is not a no-op to validation: `a |` is rejected (pipe as last
token) but `a | &` is accepted, because the `&` token defeats the
pipe-at-end check. -/
theorem c6_counterexample :
    (mainDispatch "sleep 1&".data).validated = some ["sleep", "1", "&"] ∧
    (mainDispatch "sleep 1&".data).bgSpawn = some ["sleep", "1", "&"] ∧
    "&" ∈ ["sleep", "1", "&"] ∧
    hasSyntaxErrors ["a", "|"] = true ∧
    hasSyntaxErrors ["a", "|", "&"] = false ∧
    (mainDispatch "a | &".data).rejected = false := by decide

/-- Claim C6 (amended): a trailing background marker is detected on the
normalized input string and recorded as the background flag, but it is
never stripped from the token sequence: the validators receive the tokens
with the trailing `"&"` token, and the background executor receives
exactly the same unstripped sequence as its argument vector. -/
theorem c6_amended (raw : List Char)
    (hexit : raw ≠ "exit".data)
    (hbg : isBackgroundCommand (checkWhiteSpaces raw) = true)
    (hv1 : hasMultipleRedirectionsOrPipes (shellTokens raw) = false)
    (hv2 : hasSyntaxErrors (shellTokens raw) = false) :
    (mainDispatch raw).validated = some (shellTokens raw) ∧
    (mainDispatch raw).bgSpawn = some (shellTokens raw) ∧
    (shellTokens raw).getLast? = some "&" := by
  have hraw : raw ≠ [] := by
    intro h
    rw [h] at hbg
    exact absurd hbg (by decide)
  have hlastc : (checkWhiteSpaces raw).getLast? = some '&' := by
    unfold isBackgroundCommand at hbg
    cases hl : (checkWhiteSpaces raw).getLast? with
    | none => rw [hl] at hbg; exact Bool.noConfusion hbg
    | some c =>
      rw [hl] at hbg
      simp only [decide_eq_true_eq] at hbg
      rw [hbg]
  have hrawlast : raw.getLast? = some '&' := by
    unfold checkWhiteSpaces at hlastc
    rw [cwsAux_getLast raw none hraw] at hlastc
    exact hlastc
  have htokl : (shellTokens raw).getLast? = some "&" := by
    unfold shellTokens
    rw [tokenizeChars_checkWhiteSpaces, List.getLast?_map]
    unfold scanTokens
    rw [scanAux_getLast_special raw [] (by decide) hrawlast]
    decide
  have htne : shellTokens raw ≠ [] := by
    intro h
    rw [h] at htokl
    exact Option.noConfusion htokl
  have hd : mainDispatch raw =
      { validated := some (shellTokens raw)
        bgSpawn := some (shellTokens raw)
        fgAction := some (mainFgChoice (shellTokens raw)
          ((checkWhiteSpaces raw).dropLast)) } := by
    unfold mainDispatch
    rw [if_neg hexit, if_neg htne, if_neg (by simp [hv1]),
      if_neg (by simp [hv2]), if_pos hbg, if_pos hbg]
  exact ⟨by rw [hd], by rw [hd], htokl⟩

/-- Witness for C6 (amended) on the line `cat &`. -/
theorem c6_witness :
    (mainDispatch "cat &".data).validated = some ["cat", "&"] ∧
    (mainDispatch "cat &".data).bgSpawn = some ["cat", "&"] := by
  have h := c6_amended "cat &".data (by decide) (by decide) (by decide)
    (by decide)
  exact ⟨h.1.trans (by decide), h.2.1.trans (by decide)⟩

/-- Claim C7 counterexample: the background child of `ls &` (ghost pid 0)
is never waited on during the following loop iterations — the final
session state after two further lines still lists pid 0 as an uncollected
background child, and the background executor itself retains no handle and
performs no wait. -/
theorem c7_counterexample :
    runSession sessionStart ["ls &".data, "pwd".data, "pwd".data]
      = ⟨4, [0], [1, 2, 3]⟩ ∧
    (0 : Nat) ∉ ([1, 2, 3] : List Nat) ∧
    (executeCommandInBackgroundParent ["ls", "&"]).retainedPids = [] ∧
    (executeCommandInBackgroundParent ["ls", "&"]).waits = [] := by decide

/-- Claim C7 (amended): the shell never reaps a background child — every
`waitpid` in the program is issued by a foreground executor on pids it
itself forked, so no background pid is ever waited on, in any session. -/
theorem c7_amended (lines : List (List Char)) (p : Nat)
    (hp : p ∈ (runSession sessionStart lines).bgPids) :
    p ∉ (runSession sessionStart lines).fgWaited := by
  have hinv : sessionInv (runSession sessionStart lines) :=
    runSession_inv lines sessionStart
      ⟨by simp [sessionStart], by simp [sessionStart], by simp [sessionStart]⟩
  exact hinv.2.2 p hp

/-- Witness for C7 (amended) on the single-line session `ls &`. -/
theorem c7_witness :
    0 ∈ (runSession sessionStart ["ls &".data]).bgPids ∧
    0 ∉ (runSession sessionStart ["ls &".data]).fgWaited :=
  ⟨by decide, c7_amended ["ls &".data] 0 (by decide)⟩

/-- Claim C8 counterexample: for the redirected command `cat < f` the
launching parent itself duplicates its standard input (`dup`, line 159)
and re-points it with `dup2` after the wait (line 172) — so duplication of
standard streams does not happen exclusively inside the child, refuting
the claim as stated. -/
theorem c8_counterexample :
    POp.dupSave StreamId.stdin ∈
      (executeCommandParentFx ["cat", "<", "f"]
        Binding.inherited Binding.inherited).ops ∧
    POp.dup2Restore StreamId.stdin ∈
      (executeCommandParentFx ["cat", "<", "f"]
        Binding.inherited Binding.inherited).ops := by decide

/-- Claim C8 (amended): the parent performs a vestigial save (`dup`) and
restore (`dup2`) of its own standard descriptors exactly when the
corresponding redirect token is present, but this never re-binds them to
anything else — the parent's standard-stream bindings after
`executeCommand` equal the ones before, for every token list; binding a
standard stream to the redirect file happens only in the child
(`executeCommandChild`). -/
theorem c8_amended (tokens : List String) (stdin0 stdout0 : Binding) :
    ((executeCommandParentFx tokens stdin0 stdout0).finalStdin = stdin0 ∧
      (executeCommandParentFx tokens stdin0 stdout0).finalStdout = stdout0) ∧
    ((POp.dup2Restore StreamId.stdin ∈
        (executeCommandParentFx tokens stdin0 stdout0).ops ↔
        findTokenIndex tokens "<" ≠ -1) ∧
      (POp.dup2Restore StreamId.stdout ∈
        (executeCommandParentFx tokens stdin0 stdout0).ops ↔
        findTokenIndex tokens ">" ≠ -1)) := by
  by_cases hIn : findTokenIndex tokens "<" = -1 <;>
    by_cases hOut : findTokenIndex tokens ">" = -1 <;>
      simp [executeCommandParentFx, hIn, hOut]

/-- Claim C9: raw input lines that differ only in whitespace adjacent to
the operator characters `|<>&` produce identical token sequences after
operator-adjacency normalization (`checkWhiteSpaces`) and whitespace
splitting (`tokenize`). -/
theorem c9_token_sequences_equal {s t : List Char} (h : OpWsEquiv s t) :
    tokenizeChars (checkWhiteSpaces s) = tokenizeChars (checkWhiteSpaces t) := by
  induction h with
  | refl => rfl
  | tail t1 u1 _ hstep ih =>
    rw [ih, tokenizeChars_checkWhiteSpaces, tokenizeChars_checkWhiteSpaces,
      scanTokens_opWsStep hstep]
  | tailRev t1 u1 _ hstep ih =>
    rw [ih, tokenizeChars_checkWhiteSpaces, tokenizeChars_checkWhiteSpaces,
      ← scanTokens_opWsStep hstep]

/-- Witness for C9 on the pair `a|b` / `a | b`. -/
theorem c9_witness :
    tokenizeChars (checkWhiteSpaces "a|b".data)
      = tokenizeChars (checkWhiteSpaces "a | b".data) ∧
    tokenizeChars (checkWhiteSpaces "a|b".data) = [['a'], ['|'], ['b']] := by
  have h1 : OpWsStep "a|b".data "a |b".data :=
    ⟨['a'], ['b'], '|', ' ', by decide, by decide,
      Or.inr ⟨by decide, by decide⟩⟩
  have h2 : OpWsStep "a |b".data "a | b".data :=
    ⟨['a', ' '], ['b'], '|', ' ', by decide, by decide,
      Or.inl ⟨by decide, by decide⟩⟩
  have he : OpWsEquiv "a|b".data "a | b".data :=
    OpWsEquiv.tail _ _ _ (OpWsEquiv.tail _ _ _ (OpWsEquiv.refl _) h1) h2
  exact ⟨c9_token_sequences_equal he, by decide⟩

/-- Claim C10 counterexample: `cat < x >` ends in a bare `>` with words
before it and is accepted by both validators, yet the single-command
executor does not spawn the command with inherited standard streams: the
`< x` redirect earlier in the line is still honored, binding the child's
standard input to the file `x`. -/
theorem c10_counterexample :
    hasMultipleRedirectionsOrPipes ["cat", "<", "x", ">"] = false ∧
    hasSyntaxErrors ["cat", "<", "x", ">"] = false ∧
    ["cat", "<", "x", ">"].getLast? = some ">" ∧
    (executeCommandChild ["cat", "<", "x", ">"] true true).stdinB
      = Binding.file "x" ∧
    Binding.file "x" ≠ Binding.inherited := by decide

/-- Claim C10 (amended): when the final token is a bare redirect operator
(its only occurrence), the single-command executor silently drops it from
the argument vector and performs no redirection for it — the corresponding
standard stream of the child stays inherited and no failure path is
reachable for that operator; a different redirect operator earlier in the
sequence is still honored. -/
theorem c10_amended (ws : List String) (op : String)
    (hop : op = "<" ∨ op = ">") (hnm : op ∉ ws) (_hne : ws ≠ []) :
    op ∉ buildArgs (ws ++ [op]) ∧
    (op = "<" → childInputRedirect (ws ++ [op]) = none ∧
      ∀ inOk outOk,
        (executeCommandChild (ws ++ [op]) inOk outOk).stdinB
          = Binding.inherited) ∧
    (op = ">" → childOutputRedirect (ws ++ [op]) = none ∧
      ∀ inOk outOk,
        (executeCommandChild (ws ++ [op]) inOk outOk).stdoutB
          = Binding.inherited) := by
  have hidx : findTokenIndex (ws ++ [op]) op = (ws.length : Int) :=
    findTokenIndex_append_self ws op hnm
  have hargs : op ∉ buildArgs (ws ++ [op]) := by
    intro hmem
    simp only [buildArgs] at hmem
    rw [List.mem_filterMap] at hmem
    obtain ⟨i, hi, hcond⟩ := hmem
    rw [List.mem_range] at hi
    split at hcond
    case isFalse => exact Option.noConfusion hcond
    case isTrue hP =>
      rcases Nat.lt_or_ge i ws.length with hlt | hge
      · rw [List.getElem?_append_left hlt] at hcond
        exact hnm (List.getElem?_mem hcond)
      · have hieq : i = ws.length := by
          rw [List.length_append] at hi
          simp at hi
          omega
        subst hieq
        rcases hop with rfl | rfl
        · exact hP.1 hidx.symm
        · exact hP.2.1 hidx.symm
  refine ⟨hargs, ?_, ?_⟩
  · rintro rfl
    have hin : childInputRedirect (ws ++ ["<"]) = none := by
      simp only [childInputRedirect]
      rw [hidx]
      rw [if_neg]
      rintro ⟨_, hlt⟩
      simp only [List.length_append, List.length_singleton] at hlt
      push_cast at hlt
      omega
    refine ⟨hin, ?_⟩
    intro inOk outOk
    simp only [executeCommandChild, hin]
    cases hq : childOutputRedirect (ws ++ ["<"]) with
    | none => simp [hq]
    | some q => cases outOk <;> simp [hq]
  · rintro rfl
    have hout : childOutputRedirect (ws ++ [">"]) = none := by
      simp only [childOutputRedirect]
      rw [hidx]
      rw [if_neg]
      rintro ⟨_, hlt⟩
      simp only [List.length_append, List.length_singleton] at hlt
      push_cast at hlt
      omega
    refine ⟨hout, ?_⟩
    intro inOk outOk
    cases hq : childInputRedirect (ws ++ [">"]) with
    | none => simp [executeCommandChild, hq, hout]
    | some p => cases inOk <;> simp [executeCommandChild, hq, hout]

/-- Witness for C10 (amended) on `cat <`. -/
theorem c10_witness :
    "<" ∉ buildArgs ["cat", "<"] ∧
    childInputRedirect ["cat", "<"] = none ∧
    (executeCommandChild ["cat", "<"] true true).stdinB
      = Binding.inherited := by
  have h := c10_amended ["cat"] "<" (Or.inl rfl) (by decide) (by decide)
  exact ⟨h.1, (h.2.1 rfl).1, (h.2.1 rfl).2 true true⟩
